import Mathlib

/-!
# Verification of `binaryfile.fileformat` (pybinaryfile)

A shallow embedding of `src/binaryfile/fileformat.py`.  Bytes are naturals
(< 256 on well-formed streams), a stream is the list of bytes remaining on the
handle, and the dict-like result container is an insertion-ordered association
list.  Fallible operations return `Except Err _`; `Err` distinguishes the
Python exception classes that the module can raise (`EOFError`,
`DefinitionError`, `DataFormatError`, and the builtin `TypeError`/`KeyError`).
-/

namespace BinaryFile

/-- Byte orders accepted by the module: `'big'` or `'little'`. -/
inductive ByteOrder where
  | big
  | little
deriving DecidableEq, Repr

/-- The exception classes observable from `fileformat.py`.
`eofError` is Python's `EOFError`, `definitionError` and `dataFormatError` are
the module's own classes, `typeError` and `keyError` are the builtins raised
by slips (wrong call arity, `len()` of a non-sequence) and by missing dict
keys. -/
inductive Err where
  | eofError
  | definitionError
  | dataFormatError
  | typeError
  | keyError
deriving DecidableEq, Repr

/-- A value stored in the result container: raw bytes, an integer, a bool or
tuple as produced by `struct.unpack`, a nested section (sub-dict), or a list
for array fields. -/
inductive Value where
  | bytes (bs : List Nat)
  | int (n : Int)
  | bool (b : Bool)
  | tup (vs : List Value)
  | sec (fields : List (String × Value))
  | arr (vs : List Value)

/-- The dict-like container (`SimpleDict` behaves as an insertion-ordered
mapping): an association list, updated in place on re-assignment. -/
abbrev Container := List (String × Value)

/-- Dict lookup (`d[name]`, returning `none` where Python raises `KeyError`). -/
def lookup : Container → String → Option Value
  | [], _ => none
  | (k, v) :: rest, name => if k = name then some v else lookup rest name

/-- Dict assignment `d[name] = v`: replaces in place when the key exists,
appends otherwise (insertion order preserved, as for a Python dict). -/
def insertVal : Container → String → Value → Container
  | [], name, v => [(name, v)]
  | (k, w) :: rest, name, v =>
      if k = name then (k, v) :: rest else (k, w) :: insertVal rest name v

/-- `len()` of a stored value, defined exactly where Python's `len` is. -/
def pyLen : Value → Option Nat
  | .bytes bs => some bs.length
  | .arr vs => some vs.length
  | .tup vs => some vs.length
  | .sec fields => some fields.length
  | _ => none

/-! ## Integer conversion (`int.from_bytes` / `int.to_bytes`) -/

/-- Big-endian bytes-to-Nat accumulation. -/
def bytesToNatBE (bs : List Nat) : Nat :=
  bs.foldl (fun acc b => acc * 256 + b) 0

/-- `int.from_bytes(bs, byteorder, signed=False)`. -/
def fromBytesU (bo : ByteOrder) (bs : List Nat) : Nat :=
  match bo with
  | .big => bytesToNatBE bs
  | .little => bytesToNatBE bs.reverse

/-- `int.from_bytes(bs, byteorder, signed=True)`: two's complement. -/
def fromBytesS (bo : ByteOrder) (bs : List Nat) : Int :=
  let u := fromBytesU bo bs
  let top := match bo with
    | .big => bs.headI
    | .little => bs.reverse.headI
  if bs ≠ [] ∧ 128 ≤ top then (u : Int) - (256 ^ bs.length : Nat) else (u : Int)

/-- Big-endian fixed-width encoding of a Nat (low `size` bytes). -/
def natToBytesBE : Nat → Nat → List Nat
  | 0, _ => []
  | n + 1, v => natToBytesBE n (v / 256) ++ [v % 256]

/-- Whether `v` fits in `size` bytes for `int.to_bytes(size, signed=False)`. -/
def fitsU (size : Nat) (v : Int) : Prop :=
  0 ≤ v ∧ v < (256 ^ size : Nat)

instance (size : Nat) (v : Int) : Decidable (fitsU size v) := by
  unfold fitsU; infer_instance

/-- Whether `v` fits in `size` bytes for `int.to_bytes(size, signed=True)`:
`-2^(8*size-1) ≤ v < 2^(8*size-1)` for positive `size`, and only `0` for
`size = 0` (Python accepts `(0).to_bytes(0, ..., signed=True)`). -/
def fitsS : Nat → Int → Prop
  | 0, v => v = 0
  | n + 1, v => -(2 ^ (8 * (n + 1) - 1) : Nat) ≤ v ∧ v < (2 ^ (8 * (n + 1) - 1) : Nat)

instance (size : Nat) (v : Int) : Decidable (fitsS size v) := by
  unfold fitsS; cases size <;> infer_instance

/-- `value.to_bytes(size, byteorder, signed)`; `none` where Python raises
`OverflowError`.  A negative value is encoded via its two's-complement
representative `v + 256^size`. -/
def toBytes (size : Nat) (bo : ByteOrder) (signed : Bool) (v : Int) : Option (List Nat) :=
  let ok : Prop := if signed then fitsS size v else fitsU size v
  if _h : ok then
    let rep : Nat := if v < 0 then (v + (256 ^ size : Nat)).toNat else v.toNat
    let be := natToBytesBE size rep
    some (match bo with | .big => be | .little => be.reverse)
  else none

/-- `int.bit_length()` (of the absolute value, as Python does for negatives). -/
def bitLength (v : Int) : Nat :=
  if v.natAbs = 0 then 0 else Nat.log2 v.natAbs + 1

/-! ## `struct` format strings

The fragment of Python's `struct` mini-language used through
`BinarySectionReader.struct` / `BinarySectionWriter.struct`: an explicit
byte-order marker (`>` or `<`) followed by items — `?`, `B`, `b`, `H`, `h`,
`I`, `i` and `Ns` (fixed-length byte string).  With an explicit marker there
is no padding, so `calcsize` is the sum of the item sizes. -/

inductive FmtItem where
  | boolItem
  | u8
  | i8
  | u16
  | i16
  | u32
  | i32
  | raw (n : Nat)
deriving DecidableEq, Repr

structure Fmt where
  bo : ByteOrder
  items : List FmtItem
deriving DecidableEq, Repr

def itemSize : FmtItem → Nat
  | .boolItem => 1
  | .u8 => 1
  | .i8 => 1
  | .u16 => 2
  | .i16 => 2
  | .u32 => 4
  | .i32 => 4
  | .raw n => n

/-- `struct.calcsize` for an explicit-byte-order format. -/
def calcsize (f : Fmt) : Nat := (f.items.map itemSize).sum

/-- Unpack one item from the front of a byte list (`struct.unpack` step). -/
def unpackItem (bo : ByteOrder) (item : FmtItem) (bs : List Nat) : Value × List Nat :=
  let chunk := bs.take (itemSize item)
  let rest := bs.drop (itemSize item)
  match item with
  | .boolItem => (.bool (chunk.headI != 0), rest)
  | .u8 => (.int (fromBytesU bo chunk), rest)
  | .u16 => (.int (fromBytesU bo chunk), rest)
  | .u32 => (.int (fromBytesU bo chunk), rest)
  | .i8 => (.int (fromBytesS bo chunk), rest)
  | .i16 => (.int (fromBytesS bo chunk), rest)
  | .i32 => (.int (fromBytesS bo chunk), rest)
  | .raw _ => (.bytes chunk, rest)

/-- `struct.unpack` over a list of items. -/
def unpackGo (bo : ByteOrder) : List FmtItem → List Nat → List Value
  | [], _ => []
  | it :: its, bs =>
      let (v, rest) := unpackItem bo it bs
      v :: unpackGo bo its rest

/-- Pack one value for one item; `none` where `struct.pack` raises
`struct.error` (range or type mismatch).  `Ns` pads with zero bytes and
truncates, as Python's `s` conversion does. -/
def packItem (bo : ByteOrder) (item : FmtItem) (v : Value) : Option (List Nat) :=
  match item, v with
  | .boolItem, .bool b => some [if b then 1 else 0]
  | .boolItem, .int n => some [if n = 0 then 0 else 1]
  | .u8, .int n => toBytes 1 bo false n
  | .u16, .int n => toBytes 2 bo false n
  | .u32, .int n => toBytes 4 bo false n
  | .i8, .int n => toBytes 1 bo true n
  | .i16, .int n => toBytes 2 bo true n
  | .i32, .int n => toBytes 4 bo true n
  | .raw n, .bytes bs => some (bs.take n ++ List.replicate (n - bs.length) 0)
  | _, _ => none

/-- `struct.pack` over a list of items; arity must match exactly. -/
def packGo (bo : ByteOrder) : List FmtItem → List Value → Option (List Nat)
  | [], [] => some []
  | it :: its, v :: vs => do
      let b ← packItem bo it v
      let rest ← packGo bo its vs
      pure (b ++ rest)
  | _, _ => none

/-! ## The decoding engine (`BinarySectionReader`)

State: the bytes remaining on the handle, the result container, the
array-marker set and the current byte order.  The `name`/`parent` fields of
`BinarySectionBase` feed only the qualified-name diagnostics of error
messages, which `Err` does not record, so they are not part of the state. -/

structure RState where
  stream : List Nat
  result : Container
  arrays : List String
  byteorder : ByteOrder

/-- `handle.read(size)`: up to `size` bytes (`none` models Python's
`None`/`-1`, reading everything that remains). -/
def handleRead (s : List Nat) (size : Option Nat) : List Nat × List Nat :=
  match size with
  | none => (s, [])
  | some n => (s.take n, s.drop n)

/-- `BinarySectionReader._read_bytes`: raises `EOFError` when a bounded read
comes back short. -/
def readBytes (rs : RState) (size : Option Nat) : Except Err (List Nat × RState) :=
  let (bs, rest) := handleRead rs.stream size
  match size with
  | none => .ok (bs, { rs with stream := rest })
  | some n =>
      if bs.length < n then .error .eofError
      else .ok (bs, { rs with stream := rest })

/-- `BinarySectionReader._add_result`: set-once for scalars, append for
fields in the array-marker set, `DefinitionError` on a non-array re-use. -/
def addResult (rs : RState) (name : String) (v : Value) : Except Err RState :=
  match lookup rs.result name with
  | some old =>
      if name ∈ rs.arrays then
        match old with
        | .arr vs => .ok { rs with result := insertVal rs.result name (.arr (vs ++ [v])) }
        | _ => .error .typeError
      else .error .definitionError
  | none => .ok { rs with result := insertVal rs.result name v }

/-- `BinarySectionReader.array`: unconditionally rebinds `name` to `[]` and
adds it to the array-marker set.  Total — the Python method cannot raise. -/
def readerArray (rs : RState) (name : String) : RState :=
  { rs with
    result := insertVal rs.result name (.arr [])
    arrays := if name ∈ rs.arrays then rs.arrays else name :: rs.arrays }

/-- `BinarySectionReader.skip`: reads `size` bytes and appends them to the
`'__skipped'` list (created on first use).  Returns Python `None`. -/
def readerSkip (rs : RState) (size : Nat) : Except Err (Option (List Nat) × RState) :=
  match lookup rs.result "__skipped" with
  | some (.arr vs) =>
      (readBytes rs (some size)).bind fun (bs, rs) =>
        .ok (none, { rs with result := insertVal rs.result "__skipped" (.arr (vs ++ [.bytes bs])) })
  | some _ => .error .typeError
  | none =>
      (readBytes rs (some size)).bind fun (bs, rs) =>
        .ok (none, { rs with result := insertVal rs.result "__skipped" (.arr [.bytes bs]) })

/-- `BinarySectionReader.bytes`. -/
def readerBytes (rs : RState) (name : String) (size : Option Nat) : Except Err (List Nat × RState) :=
  (readBytes rs size).bind fun (bs, rs) =>
    (addResult rs name (.bytes bs)).map fun rs => (bs, rs)

/-- `BinarySectionReader._int`: read, `int.from_bytes`, store. -/
def readerIntAux (rs : RState) (name : String) (size : Option Nat) (bo : Option ByteOrder)
    (signed : Bool) : Except Err (Int × RState) :=
  let bo := bo.getD rs.byteorder
  (readBytes rs size).bind fun (bs, rs) =>
    let v : Int := if signed then fromBytesS bo bs else (fromBytesU bo bs : Int)
    (addResult rs name (.int v)).map fun rs => (v, rs)

/-- `BinarySectionReader.int`. -/
def readerInt (rs : RState) (name : String) (size : Option Nat) (bo : Option ByteOrder) :
    Except Err (Int × RState) :=
  readerIntAux rs name size bo true

/-- `BinarySectionReader.uint`. -/
def readerUint (rs : RState) (name : String) (size : Option Nat) (bo : Option ByteOrder) :
    Except Err (Int × RState) :=
  readerIntAux rs name size bo false

/-- `BinarySectionReader.count`: delegates to `uint`; the target name is
ignored on decode. -/
def readerCount (rs : RState) (name : String) (_targetName : String) (size : Option Nat)
    (bo : Option ByteOrder) : Except Err (Int × RState) :=
  readerUint rs name size bo

/-- `BinarySectionReader.struct`: read `calcsize` bytes, unpack, store the
tuple. -/
def readerStruct (rs : RState) (name : String) (fmt : Fmt) :
    Except Err (List Value × RState) :=
  (readBytes rs (some (calcsize fmt))).bind fun (bs, rs) =>
    let vs := unpackGo fmt.bo fmt.items bs
    (addResult rs name (.tup vs)).map fun rs => (vs, rs)

/-- `BinarySectionReader._section`: the child is built by
`type(self)(self.handle, type(self.result))`, i.e. a fresh constructor call —
empty result, empty array-marker set, and `byteorder` as `__init__` leaves
it: `'big'`, whatever the parent's current byte order is. -/
def sectionChildR (rs : RState) : RState :=
  { stream := rs.stream, result := [], arrays := [], byteorder := .big }

/-! ## The encoding engine (`BinarySectionWriter`)

State: the data container, the per-field consumption indices, the current
byte order and the bytes written to the sink so far. -/

structure WState where
  data : Container
  indices : List (String × Nat)
  byteorder : ByteOrder
  out : List Nat

/-- Lookup in the `indices` dict. -/
def lookupIdx : List (String × Nat) → String → Option Nat
  | [], _ => none
  | (k, i) :: rest, name => if k = name then some i else lookupIdx rest name

/-- Assignment in the `indices` dict. -/
def setIdx : List (String × Nat) → String → Nat → List (String × Nat)
  | [], name, i => [(name, i)]
  | (k, j) :: rest, name, i =>
      if k = name then (k, i) :: rest else (k, j) :: setIdx rest name i

/-- `int(value)` as applied by `BinarySectionWriter._int`; `none` where
Python raises `TypeError`. -/
def pyInt : Value → Option Int
  | .int n => some n
  | .bool b => some (if b then 1 else 0)
  | _ => none

/-- The iterable unpacking `*data` of `BinarySectionWriter.struct`; `none`
where Python raises `TypeError` for a non-iterable. -/
def toTuple : Value → Option (List Value)
  | .tup vs => some vs
  | .arr vs => some vs
  | .bytes bs => some (bs.map Value.int)
  | _ => none

/-- `BinarySectionWriter.array`: resets the consumption index to zero. -/
def writerArray (ws : WState) (name : String) : WState :=
  { ws with indices := setIdx ws.indices name 0 }

/-- `BinarySectionWriter._get_data`: scalar lookup, or indexed consumption
for fields present in `indices` — `DataFormatError` when the index has
passed the end of the stored sequence.  Indexing a stored `bytes` value
yields its byte as an integer, indexing a dict by position raises
`KeyError`, and `len()` of a non-sequence raises `TypeError`, as in
Python. -/
def getData (ws : WState) (name : String) : Except Err (Value × WState) :=
  match lookupIdx ws.indices name with
  | some i =>
      match lookup ws.data name with
      | none => .error .keyError
      | some v =>
          match pyLen v with
          | none => .error .typeError
          | some len =>
              if i < len then
                let elem : Except Err Value :=
                  match v with
                  | .arr vs => .ok (vs.getD i (.int 0))
                  | .tup vs => .ok (vs.getD i (.int 0))
                  | .bytes bs => .ok (.int (bs.getD i 0))
                  | _ => .error .keyError
                elem.map fun e => (e, { ws with indices := setIdx ws.indices name (i + 1) })
              else .error .dataFormatError
  | none =>
      match lookup ws.data name with
      | some v => .ok (v, ws)
      | none => .error .keyError

/-- `BinarySectionWriter._write_bytes`: length must equal a bounded `size`
exactly (`DataFormatError` otherwise), then the bytes go to the sink.
`len()` of a non-sequence and `handle.write` of a non-bytes value raise
`TypeError`. -/
def writeBytesChecked (ws : WState) (size : Option Nat) (v : Value) :
    Except Err (List Nat × WState) :=
  match pyLen v with
  | none => .error .typeError
  | some len =>
      if size.elim false (fun n => len != n) then .error .dataFormatError
      else
        match v with
        | .bytes bs => .ok (bs, { ws with out := ws.out ++ bs })
        | _ => .error .typeError

/-- `BinarySectionWriter.skip`: zero-fill when the container has no
`'__skipped'` entry at all; otherwise consume the next recorded region
(array-indexed) and write it back, requiring its length to equal `size`. -/
def writerSkip (ws : WState) (size : Nat) : Except Err (Option (List Nat) × WState) :=
  match lookup ws.data "__skipped" with
  | none => .ok (none, { ws with out := ws.out ++ List.replicate size 0 })
  | some _ =>
      let ws := if lookupIdx ws.indices "__skipped" = none then writerArray ws "__skipped" else ws
      (getData ws "__skipped").bind fun (v, ws) =>
        (writeBytesChecked ws (some size) v).map fun (bs, ws) => (some bs, ws)

/-- `BinarySectionWriter.bytes`. -/
def writerBytes (ws : WState) (name : String) (size : Option Nat) :
    Except Err (List Nat × WState) :=
  (getData ws name).bind fun (v, ws) =>
    writeBytesChecked ws size v

/-- `BinarySectionWriter._int`: convert to int, compute the minimal size when
`size` is unbounded, encode with `int.to_bytes` (`OverflowError` becomes
`DataFormatError`), write, and return the integer value. -/
def writerIntAux (ws : WState) (name : String) (size : Option Nat) (bo : Option ByteOrder)
    (signed : Bool) : Except Err (Int × WState) :=
  (getData ws name).bind fun (v, ws) =>
    match pyInt v with
    | none => .error .typeError
    | some value =>
        let sz := size.getD ((bitLength value + 7) / 8)
        let bo := bo.getD ws.byteorder
        match toBytes sz bo signed value with
        | none => .error .dataFormatError
        | some bs => .ok (value, { ws with out := ws.out ++ bs })

/-- `BinarySectionWriter.int`. -/
def writerInt (ws : WState) (name : String) (size : Option Nat) (bo : Option ByteOrder) :
    Except Err (Int × WState) :=
  writerIntAux ws name size bo true

/-- `BinarySectionWriter.uint`. -/
def writerUint (ws : WState) (name : String) (size : Option Nat) (bo : Option ByteOrder) :
    Except Err (Int × WState) :=
  writerIntAux ws name size bo false

/-- `BinarySectionWriter.count`.  The source is

```
self.data[name] = len(self.data[array_name])
return self.uint(self, name, size, byteorder)
```

The second line is a bound-method call carrying an extra positional `self`
(five arguments against `uint`'s maximum of four), which Python rejects with
`TypeError` before `uint` runs.  The preceding assignment mutates a dict
that the aborted traversal never exposes, so it is not modelled.  `KeyError`
and `TypeError` from `len(self.data[array_name])` fire first when the target
is missing or not a sequence. -/
def writerCount (ws : WState) (_name : String) (targetName : String) (_size : Option Nat)
    (_bo : Option ByteOrder) : Except Err (Int × WState) :=
  match lookup ws.data targetName with
  | none => .error .keyError
  | some v =>
      match pyLen v with
      | none => .error .typeError
      | some _ => .error .typeError

/-- `BinarySectionWriter.struct`: pack the consumed value (`struct.error`
becomes `DataFormatError`), write, and return `self.data[name]` — the whole
stored value, not the element `_get_data` consumed. -/
def writerStruct (ws : WState) (name : String) (fmt : Fmt) :
    Except Err (Value × WState) :=
  (getData ws name).bind fun (v, ws) =>
    match toTuple v with
    | none => .error .typeError
    | some vs =>
        match packGo fmt.bo fmt.items vs with
        | none => .error .dataFormatError
        | some bs =>
            match lookup ws.data name with
            | some stored => .ok (stored, { ws with out := ws.out ++ bs })
            | none => .error .keyError

/-- `BinarySectionWriter._section` child construction: a fresh
`type(self)(self.handle, data)` — empty indices and `byteorder` reset to
`'big'` regardless of the parent's current byte order; the sink (`out`) is
shared with the parent. -/
def sectionChildW (ws : WState) (fields : Container) : WState :=
  { data := fields, indices := [], byteorder := .big, out := ws.out }

/-! ## Format descriptions

A format description is a callback receiving the section object; it may
branch on every value an operation returns.  We embed it as a tree of
operations in declaration order, with continuations that receive the value
the engine returned — `section` hands the description the sub-container,
`struct` the value the engine chose to return, integers the decoded or
written integer. -/

inductive Desc where
  | done : Desc
  | skipD (size : Nat) (k : Desc) : Desc
  | secD (name : String) (body : Desc) (k : Container → Desc) : Desc
  | arrayD (name : String) (k : Desc) : Desc
  | countD (name targetName : String) (size : Option Nat) (bo : Option ByteOrder)
      (k : Int → Desc) : Desc
  | bytesD (name : String) (size : Option Nat) (k : List Nat → Desc) : Desc
  | intD (name : String) (size : Option Nat) (bo : Option ByteOrder) (k : Int → Desc) : Desc
  | uintD (name : String) (size : Option Nat) (bo : Option ByteOrder) (k : Int → Desc) : Desc
  | structD (name : String) (fmt : Fmt) (k : Value → Desc) : Desc
  | setBoD (bo : ByteOrder) (k : Desc) : Desc

/-- Run a description against the decoding engine. -/
def runRead : Desc → RState → Except Err RState
  | .done, rs => .ok rs
  | .skipD size k, rs => (readerSkip rs size).bind fun (_, rs) => runRead k rs
  | .secD name body k, rs =>
      (runRead body (sectionChildR rs)).bind fun child =>
        (addResult { rs with stream := child.stream } name (.sec child.result)).bind fun rs =>
          runRead (k child.result) rs
  | .arrayD name k, rs => runRead k (readerArray rs name)
  | .countD name target size bo k, rs =>
      (readerCount rs name target size bo).bind fun (v, rs) => runRead (k v) rs
  | .bytesD name size k, rs =>
      (readerBytes rs name size).bind fun (bs, rs) => runRead (k bs) rs
  | .intD name size bo k, rs =>
      (readerInt rs name size bo).bind fun (v, rs) => runRead (k v) rs
  | .uintD name size bo k, rs =>
      (readerUint rs name size bo).bind fun (v, rs) => runRead (k v) rs
  | .structD name fmt k, rs =>
      (readerStruct rs name fmt).bind fun (vs, rs) => runRead (k (.tup vs)) rs
  | .setBoD bo k, rs => runRead k { rs with byteorder := bo }

/-- Run a description against the encoding engine.  A section looks up (or
consumes, for array fields) the sub-container and recurses with a fresh
child state sharing the sink. -/
def runWrite : Desc → WState → Except Err WState
  | .done, ws => .ok ws
  | .skipD size k, ws => (writerSkip ws size).bind fun (_, ws) => runWrite k ws
  | .secD name body k, ws =>
      (getData ws name).bind fun (v, ws) =>
        match v with
        | .sec fields =>
            (runWrite body (sectionChildW ws fields)).bind fun child =>
              runWrite (k fields) { ws with out := child.out }
        | _ => .error .typeError
  | .arrayD name k, ws => runWrite k (writerArray ws name)
  | .countD name target size bo k, ws =>
      (writerCount ws name target size bo).bind fun (v, ws) => runWrite (k v) ws
  | .bytesD name size k, ws =>
      (writerBytes ws name size).bind fun (bs, ws) => runWrite (k bs) ws
  | .intD name size bo k, ws =>
      (writerInt ws name size bo).bind fun (v, ws) => runWrite (k v) ws
  | .uintD name size bo k, ws =>
      (writerUint ws name size bo).bind fun (v, ws) => runWrite (k v) ws
  | .structD name fmt k, ws =>
      (writerStruct ws name fmt).bind fun (v, ws) => runWrite (k v) ws
  | .setBoD bo k, ws => runWrite k { ws with byteorder := bo }

/-- `fileformat.read(handle, definition)`: run a fresh `BinarySectionReader`
and return its result container. -/
def ffread (stream : List Nat) (d : Desc) : Except Err Container :=
  (runRead d { stream := stream, result := [], arrays := [], byteorder := .big }).map
    fun rs => rs.result

/-- `fileformat.write(handle, data, definition)`: run a fresh
`BinarySectionWriter`; the model returns the bytes written to the sink. -/
def ffwrite (data : Container) (d : Desc) : Except Err (List Nat) :=
  (runWrite d { data := data, indices := [], byteorder := .big, out := [] }).map
    fun ws => ws.out

/-- Modelled from the spec: the `eof()` operation of the decoding engine is
absent from `src/binaryfile/fileformat.py` (only its `SEEK_CUR` import
remains there).  Per the spec it "peeks one byte ahead (pushing it back if
present) to test whether the stream is exhausted": read one byte; if a byte
came back, seek back one byte and report not-exhausted, else report
exhausted.  Returns the flag and the stream as the operation leaves it. -/
def readerEof (s : List Nat) : Bool × List Nat :=
  let byte := s.take 1
  let rest := s.drop 1
  if byte.isEmpty then (true, rest) else (false, byte ++ rest)

/-! ## Iterated operations

Helpers used to state the array-discipline property: `addResultN` folds
`_add_result` over a list of decoded values, and `getDataN` chains `n`
consecutive `_get_data` consumptions. -/

def addResultN : RState → String → List Value → Except Err RState
  | rs, _, [] => .ok rs
  | rs, name, v :: vs => (addResult rs name v).bind fun rs' => addResultN rs' name vs

def getDataN : WState → String → Nat → Except Err (List Value × WState)
  | ws, _, 0 => .ok ([], ws)
  | ws, name, n + 1 =>
      (getData ws name).bind fun (v, ws') =>
        (getDataN ws' name n).map fun (vs, ws'') => (v :: vs, ws'')

/-! ## Concrete descriptions used in the theorems -/

/-- The description `f.bytes('x', 1); f.count('n', 'x', 1)`. -/
def countDesc : Desc :=
  .bytesD "x" (some 1) fun _ => .countD "n" "x" (some 1) none fun _ => .done

/-- The container `read` produces for `countDesc` on the stream `b'A\x01'`. -/
def countDescResult : Container := [("x", .bytes [65]), ("n", .int 1)]

/-- The description `f.byteorder = 'little'; f.section('a', lambda a: a.uint('x', 2))`. -/
def boDesc : Desc :=
  .setBoD .little (.secD "a" (.uintD "x" (some 2) none fun _ => .done) fun _ => .done)

/-- The description `f.skip(1)`. -/
def skipDesc : Desc := .skipD 1 .done

/-- The description `f.uint('n', 2)`. -/
def uintDesc : Desc := .uintD "n" (some 2) none fun _ => .done

/-! ## Shared lemmas -/

theorem bytesToNatBE_foldl_acc (bs : List Nat) (acc : Nat) :
    bs.foldl (fun a b => a * 256 + b) acc = acc * 256 ^ bs.length + bytesToNatBE bs := by
  induction bs generalizing acc with
  | nil => simp [bytesToNatBE]
  | cons b bs ih =>
      simp only [List.foldl_cons, bytesToNatBE, List.length_cons]
      rw [ih (acc * 256 + b), ih (0 * 256 + b)]
      ring

theorem bytesToNatBE_cons (b : Nat) (bs : List Nat) :
    bytesToNatBE (b :: bs) = b * 256 ^ bs.length + bytesToNatBE bs := by
  have h := bytesToNatBE_foldl_acc bs b
  simpa [bytesToNatBE] using h

theorem bytesToNatBE_lt (bs : List Nat) (h : ∀ b ∈ bs, b < 256) :
    bytesToNatBE bs < 256 ^ bs.length := by
  induction bs with
  | nil => simp [bytesToNatBE]
  | cons b bs ih =>
      have hb : b < 256 := h b (by simp)
      have hrest : bytesToNatBE bs < 256 ^ bs.length :=
        ih fun x hx => h x (by simp [hx])
      rw [bytesToNatBE_cons, List.length_cons, pow_succ]
      calc b * 256 ^ bs.length + bytesToNatBE bs
          < b * 256 ^ bs.length + 256 ^ bs.length := by omega
        _ = (b + 1) * 256 ^ bs.length := by ring
        _ ≤ 256 * 256 ^ bs.length := by
            exact Nat.mul_le_mul_right _ (by omega)
        _ = 256 ^ bs.length * 256 := by ring

theorem fromBytesU_lt (bo : ByteOrder) (bs : List Nat) (h : ∀ b ∈ bs, b < 256) :
    fromBytesU bo bs < 256 ^ bs.length := by
  cases bo with
  | big => exact bytesToNatBE_lt bs h
  | little =>
      have := bytesToNatBE_lt bs.reverse (fun b hb => h b (List.mem_reverse.mp hb))
      simpa [fromBytesU] using this

theorem two_pow_signed_bound (n : Nat) : (2 : Nat) ^ (8 * (n + 1) - 1) = 128 * 256 ^ n := by
  have h8 : 8 * (n + 1) - 1 = 8 * n + 7 := by omega
  rw [h8, pow_add]
  have : (256 : Nat) ^ n = 2 ^ (8 * n) := by
    rw [show (256 : Nat) = 2 ^ 8 by norm_num, ← pow_mul]
  rw [this]
  ring

theorem fitsU_fromBytesU (bo : ByteOrder) (bs : List Nat) (h : ∀ b ∈ bs, b < 256) :
    fitsU bs.length ((fromBytesU bo bs : Nat) : Int) := by
  refine ⟨Int.ofNat_nonneg _, ?_⟩
  exact_mod_cast fromBytesU_lt bo bs h

/-- Two's-complement decomposition for a big-endian byte list. -/
theorem signedBE_fits (bs : List Nat) (h : ∀ b ∈ bs, b < 256) :
    fitsS bs.length
      (if bs ≠ [] ∧ 128 ≤ bs.headI then
        ((bytesToNatBE bs : Int) - ((256 ^ bs.length : Nat) : Int))
       else ((bytesToNatBE bs : Int))) := by
  cases bs with
  | nil => simp [fitsS, bytesToNatBE]
  | cons b rest =>
      have hb : b < 256 := h b (by simp)
      have hrest : bytesToNatBE rest < 256 ^ rest.length :=
        bytesToNatBE_lt rest fun x hx => h x (by simp [hx])
      have hcons := bytesToNatBE_cons b rest
      have hbound := two_pow_signed_bound rest.length
      by_cases htop : 128 ≤ b
      · simp only [List.headI, ne_eq, reduceCtorEq, not_false_eq_true, true_and, htop, if_pos]
        constructor
        · have hlow : 128 * 256 ^ rest.length ≤ bytesToNatBE (b :: rest) := by
            rw [hcons]
            calc 128 * 256 ^ rest.length ≤ b * 256 ^ rest.length :=
                  Nat.mul_le_mul_right _ htop
              _ ≤ b * 256 ^ rest.length + bytesToNatBE rest := Nat.le_add_right _ _
          rw [List.length_cons, hbound]
          have hpow : (256 : Nat) ^ (rest.length + 1) = 256 * 256 ^ rest.length := by
            rw [pow_succ]; ring
          have h1 : (128 * 256 ^ rest.length : Nat) ≤ (bytesToNatBE (b :: rest) : Int) := by
            exact_mod_cast hlow
          have h2 : ((256 ^ (rest.length + 1) : Nat) : Int)
              = 2 * ((128 * 256 ^ rest.length : Nat) : Int) := by
            push_cast [hpow]; ring
          omega
        · have hup : bytesToNatBE (b :: rest) < 256 ^ (rest.length + 1) := by
            have := bytesToNatBE_lt (b :: rest) h
            simpa using this
          rw [List.length_cons, hbound]
          have h1 : (bytesToNatBE (b :: rest) : Int) < ((256 ^ (rest.length + 1) : Nat) : Int) := by
            exact_mod_cast hup
          have h2 : (0 : Int) ≤ ((128 * 256 ^ rest.length : Nat) : Int) := Int.ofNat_nonneg _
          omega
      · simp only [List.headI, ne_eq, reduceCtorEq, not_false_eq_true, true_and, htop, if_neg]
        constructor
        · have h2 : (0 : Int) ≤ (bytesToNatBE (b :: rest) : Int) := Int.ofNat_nonneg _
          have h3 : (0 : Nat) < 2 ^ (8 * (rest.length + 1) - 1) := Nat.pos_pow_of_pos _ (by norm_num)
          have h4 : (0 : Int) < ((2 ^ (8 * (rest.length + 1) - 1) : Nat) : Int) := by
            exact_mod_cast h3
          omega
        · have hup : bytesToNatBE (b :: rest) < 128 * 256 ^ rest.length := by
            rw [hcons]
            calc b * 256 ^ rest.length + bytesToNatBE rest
                < b * 256 ^ rest.length + 256 ^ rest.length := by omega
              _ = (b + 1) * 256 ^ rest.length := by ring
              _ ≤ 128 * 256 ^ rest.length := Nat.mul_le_mul_right _ (by omega)
          rw [hbound]
          exact_mod_cast hup

theorem fitsS_fromBytesS (bo : ByteOrder) (bs : List Nat) (h : ∀ b ∈ bs, b < 256) :
    fitsS bs.length (fromBytesS bo bs) := by
  cases bo with
  | big => exact signedBE_fits bs h
  | little =>
      have h' : ∀ b ∈ bs.reverse, b < 256 := fun b hb => h b (List.mem_reverse.mp hb)
      have := signedBE_fits bs.reverse h'
      have hne : (bs.reverse ≠ []) = (bs ≠ []) := by
        simp
      simp only [fromBytesS, fromBytesU, List.length_reverse] at this ⊢
      simpa [hne] using this

theorem readBytes_bounded_ok {rs : RState} {n : Nat} {bs : List Nat} {rs' : RState}
    (h : readBytes rs (some n) = .ok (bs, rs')) :
    bs = rs.stream.take n ∧ bs.length = n ∧
      rs' = { rs with stream := rs.stream.drop n } := by
  by_cases hs : rs.stream.length < n
  · simp [readBytes, handleRead, hs] at h
  · simp [readBytes, handleRead, hs] at h
    obtain ⟨h1, h2⟩ := h
    refine ⟨h1.symm, ?_, h2.symm⟩
    rw [← h1, List.length_take]
    omega

theorem readBytes_eof {rs : RState} {n : Nat} (h : rs.stream.length < n) :
    readBytes rs (some n) = .error .eofError := by
  unfold readBytes handleRead
  have hlen : (rs.stream.take n).length < n := by
    rw [List.length_take]
    omega
  simp [hlen, h]

theorem lookup_insertVal_self (c : Container) (name : String) (v : Value) :
    lookup (insertVal c name v) name = some v := by
  induction c with
  | nil => simp [insertVal, lookup]
  | cons kv rest ih =>
      obtain ⟨k, w⟩ := kv
      by_cases hk : k = name
      · simp [insertVal, lookup, hk]
      · simp [insertVal, lookup, hk, ih]

theorem lookupIdx_setIdx_self (l : List (String × Nat)) (name : String) (i : Nat) :
    lookupIdx (setIdx l name i) name = some i := by
  induction l with
  | nil => simp [setIdx, lookupIdx]
  | cons kv rest ih =>
      obtain ⟨k, j⟩ := kv
      by_cases hk : k = name
      · simp [setIdx, lookupIdx, hk]
      · simp [setIdx, lookupIdx, hk, ih]

theorem toBytes_not_fitsU {size : Nat} {v : Int} (bo : ByteOrder)
    (h : ¬ fitsU size v) : toBytes size bo false v = none := by
  simp [toBytes, h]

theorem toBytes_not_fitsS {size : Nat} {v : Int} (bo : ByteOrder)
    (h : ¬ fitsS size v) : toBytes size bo true v = none := by
  simp [toBytes, h]

theorem toBytes_fitsU {size : Nat} {v : Int} (bo : ByteOrder) (h : fitsU size v) :
    ∃ bs, toBytes size bo false v = some bs := by
  simp [toBytes, h]

theorem toBytes_fitsS {size : Nat} {v : Int} (bo : ByteOrder) (h : fitsS size v) :
    ∃ bs, toBytes size bo true v = some bs := by
  simp [toBytes, h]

/-- `_get_data` on an array field with the index still in range: consume the
element, bump the index, leave the data unchanged. -/
theorem getData_arr_lt {ws : WState} {name : String} {i : Nat} {vs : List Value}
    (hidx : lookupIdx ws.indices name = some i)
    (hdata : lookup ws.data name = some (.arr vs)) (hlt : i < vs.length) :
    getData ws name =
      .ok (vs.getD i (.int 0), { ws with indices := setIdx ws.indices name (i + 1) }) := by
  simp [getData, hidx, hdata, pyLen, hlt, Except.map]

/-- `_get_data` on an array field with the index past the end:
`DataFormatError`. -/
theorem getData_arr_end {ws : WState} {name : String} {i : Nat} {vs : List Value}
    (hidx : lookupIdx ws.indices name = some i)
    (hdata : lookup ws.data name = some (.arr vs)) (hge : ¬ i < vs.length) :
    getData ws name = .error .dataFormatError := by
  simp [getData, hidx, hdata, pyLen, hge]

/-- `_get_data` on a scalar field (no consumption index). -/
theorem getData_scalar {ws : WState} {name : String} {v : Value}
    (hidx : lookupIdx ws.indices name = none)
    (hdata : lookup ws.data name = some v) :
    getData ws name = .ok (v, ws) := by
  simp [getData, hidx, hdata]

/-- A successful `BinarySectionReader.bytes` got its bytes from
`_read_bytes`. -/
theorem readerBytes_ok_readBytes {rs rs' : RState} {name : String} {size : Option Nat}
    {bs : List Nat} (h : readerBytes rs name size = .ok (bs, rs')) :
    ∃ rsm, readBytes rs size = .ok (bs, rsm) := by
  unfold readerBytes at h
  cases hrb : readBytes rs size with
  | error e => rw [hrb] at h; simp [Except.bind] at h
  | ok p =>
      obtain ⟨b0, rs0⟩ := p
      rw [hrb] at h
      simp only [Except.bind] at h
      cases har : addResult rs0 name (.bytes b0) with
      | error e => rw [har] at h; simp [Except.map] at h
      | ok rs1 =>
          rw [har] at h
          simp only [Except.map, Except.ok.injEq, Prod.mk.injEq] at h
          exact ⟨rs0, by rw [h.1]⟩

/-- A successful bounded `BinarySectionReader._int` decoded
`int.from_bytes` of the exact `n`-byte prefix of the stream. -/
theorem readerIntAux_ok_val {rs rs' : RState} {name : String} {n : Nat}
    {bo : Option ByteOrder} {signed : Bool} {v : Int}
    (h : readerIntAux rs name (some n) bo signed = .ok (v, rs')) :
    (rs.stream.take n).length = n ∧
      v = (if signed then fromBytesS (bo.getD rs.byteorder) (rs.stream.take n)
           else ((fromBytesU (bo.getD rs.byteorder) (rs.stream.take n) : Nat) : Int)) := by
  unfold readerIntAux at h
  cases hrb : readBytes rs (some n) with
  | error e => rw [hrb] at h; simp [Except.bind] at h
  | ok p =>
      obtain ⟨b0, rs0⟩ := p
      obtain ⟨hb0, hlen, hrs0⟩ := readBytes_bounded_ok hrb
      rw [hrb] at h
      simp only [Except.bind] at h
      cases har : addResult rs0 name
          (.int (if signed then fromBytesS (bo.getD rs.byteorder) b0
                 else ((fromBytesU (bo.getD rs.byteorder) b0 : Nat) : Int))) with
      | error e => rw [har] at h; simp [Except.map] at h
      | ok rs1 =>
          rw [har] at h
          simp only [Except.map, Except.ok.injEq, Prod.mk.injEq] at h
          subst hb0
          exact ⟨hlen, h.1.symm⟩

/-- `_read_bytes` with an unbounded size returns the whole remaining
stream. -/
theorem readBytes_unbounded (rs : RState) :
    readBytes rs none = .ok (rs.stream, { rs with stream := [] }) := rfl

/-- A successful unbounded `BinarySectionReader._int` decoded
`int.from_bytes` of the whole remaining stream. -/
theorem readerIntAux_unbounded_ok_val {rs rs' : RState} {name : String}
    {bo : Option ByteOrder} {signed : Bool} {v : Int}
    (h : readerIntAux rs name none bo signed = .ok (v, rs')) :
    v = (if signed then fromBytesS (bo.getD rs.byteorder) rs.stream
         else ((fromBytesU (bo.getD rs.byteorder) rs.stream : Nat) : Int)) := by
  unfold readerIntAux at h
  rw [readBytes_unbounded] at h
  simp only [Except.bind] at h
  cases har : addResult { rs with stream := [] } name
      (.int (if signed then fromBytesS (bo.getD rs.byteorder) rs.stream
             else ((fromBytesU (bo.getD rs.byteorder) rs.stream : Nat) : Int))) with
  | error e => rw [har] at h; simp [Except.map] at h
  | ok rs1 =>
      rw [har] at h
      simp only [Except.map, Except.ok.injEq, Prod.mk.injEq] at h
      exact h.1.symm

/-- A nonnegative value always fits the minimal unsigned width
`(bit_length + 7) // 8` that `_int` computes for an unbounded size. -/
theorem fitsU_minimal (v : Int) (h : 0 ≤ v) : fitsU ((bitLength v + 7) / 8) v := by
  refine ⟨h, ?_⟩
  by_cases h0 : v.natAbs = 0
  · have hv : v = 0 := by omega
    simp [hv, bitLength]
  · have hbl : bitLength v = Nat.log2 v.natAbs + 1 := by simp [bitLength, h0]
    have hlt : v.natAbs < 2 ^ (Nat.log2 v.natAbs + 1) := by
      rw [Nat.log2_eq_log_two]
      exact Nat.lt_pow_succ_log_self (by norm_num) _
    have hv : v = (v.natAbs : Int) := by omega
    rw [hbl]
    have hexp : Nat.log2 v.natAbs + 1 ≤ 8 * ((Nat.log2 v.natAbs + 1 + 7) / 8) := by omega
    have hpow : (2 : Nat) ^ (Nat.log2 v.natAbs + 1)
        ≤ 2 ^ (8 * ((Nat.log2 v.natAbs + 1 + 7) / 8)) :=
      Nat.pow_le_pow_right (by norm_num) hexp
    have h256 : (256 : Nat) ^ ((Nat.log2 v.natAbs + 1 + 7) / 8)
        = 2 ^ (8 * ((Nat.log2 v.natAbs + 1 + 7) / 8)) := by
      rw [show (256 : Nat) = 2 ^ 8 by norm_num, ← pow_mul]
    calc v = (v.natAbs : Int) := hv
      _ < ((2 ^ (Nat.log2 v.natAbs + 1) : Nat) : Int) := by exact_mod_cast hlt
      _ ≤ ((2 ^ (8 * ((Nat.log2 v.natAbs + 1 + 7) / 8)) : Nat) : Int) := by exact_mod_cast hpow
      _ = ((256 ^ ((Nat.log2 v.natAbs + 1 + 7) / 8) : Nat) : Int) := by rw [h256]

/-- `(128).bit_length() == 8`. -/
theorem bitLength_128 : bitLength 128 = 8 := by
  have h1 : Nat.log2 128 = 7 := by
    rw [Nat.log2_eq_log_two, show (128 : Nat) = 2 ^ 7 by norm_num]
    exact Nat.log_pow (by norm_num) 7
  simp [bitLength, h1]

/-! ## The claims -/

/-- C1: the round-trip law `write(read(s, d), d) == s` fails on the code.
For the description `bytes('x', 1); count('n', 'x', 1)` the stream `b'A\x01'`
decodes without error, but re-encoding the decoded container raises
`TypeError` inside `BinarySectionWriter.count` — `self.uint(self, name, size,
byteorder)` passes an extra positional argument — so `write` aborts instead
of reproducing the stream. -/
theorem count_breaks_roundtrip :
    ffread [65, 1] countDesc = .ok countDescResult ∧
    ffwrite countDescResult countDesc = .error .typeError :=
  ⟨rfl, rfl⟩

/-- C2: on decode, `count(name, target, size, byteorder)` is exactly
`uint(name, size, byteorder)` — the target name is never consulted.  On
encode the claim fails on the code: with `'payload'` bound to the 3-byte
value `b'ABC'`, `count('n', 'payload', 1)` raises `TypeError` instead of
writing `len(data['payload']) = 3` as a 1-byte unsigned integer. -/
theorem count_decode_is_uint_encode_raises :
    (∀ (rs : RState) (name target : String) (size : Option Nat) (bo : Option ByteOrder),
      readerCount rs name target size bo = readerUint rs name size bo) ∧
    writerCount
        { data := [("payload", .bytes [65, 66, 67])], indices := [], byteorder := .big,
          out := [] } "n" "payload" (some 1) none = .error .typeError :=
  ⟨fun _ _ _ _ _ => rfl, rfl⟩

/-- C3 counterexample: with the parent context's byte order set to
`'little'`, the child context `_section` constructs starts with byte order
`'big'` on both engines — so decoding `b'\x01\x00'` as `uint('x', 2)` inside
a section under a little-endian root yields the big-endian value 256, where
inheritance would give 1. -/
theorem section_child_ignores_little :
    (sectionChildR ⟨[], [], [], .little⟩).byteorder = .big ∧
    (sectionChildW ⟨[], [], .little, []⟩ []).byteorder = .big ∧
    ByteOrder.big ≠ .little ∧
    ffread [1, 0] boDesc = .ok [("a", .sec [("x", .int 256)])] ∧
    (256 : Int) ≠ 1 :=
  ⟨rfl, rfl, by decide, rfl, by decide⟩

/-- C3 amended: the child context constructed by `_section` always starts
with byte order `'big'` — the constructor default — whatever the parent's
current byte order is, on both engines; byte order is not inherited. -/
theorem section_child_byteorder_is_big (rs : RState) (ws : WState) (fields : Container) :
    (sectionChildR rs).byteorder = .big ∧ (sectionChildW ws fields).byteorder = .big :=
  ⟨rfl, rfl⟩

/-- C5: `eof()` reports whether the stream is exhausted by peeking one byte
and pushing it back if present; it consumes nothing and leaves the stream
exactly as it found it. -/
theorem eof_peeks_without_consuming (s : List Nat) :
    (readerEof s).1 = s.isEmpty ∧ (readerEof s).2 = s := by
  cases s <;> simp [readerEof]

/-- C7: re-using a name that is already bound in the section's result and is
not in the array-marker set makes `_add_result` raise `DefinitionError` for
every value: no state with an overwritten binding is ever produced, so the
first stored value survives in the caller's container untouched. -/
theorem nonarray_redeclaration_is_definition_error (rs : RState) (name : String)
    (v v0 : Value) (hbound : lookup rs.result name = some v0) (hna : name ∉ rs.arrays) :
    addResult rs name v = .error .definitionError := by
  simp [addResult, hbound, hna]

/-- Witness for C7 at a container already binding `'f'` as a scalar. -/
theorem nonarray_redeclaration_is_definition_error_witness :
    lookup ([("f", .int 1)] : Container) "f" = some (.int 1) ∧
    "f" ∉ ([] : List String) ∧
    addResult { stream := [], result := [("f", .int 1)], arrays := [], byteorder := .big }
        "f" (.int 2) = .error .definitionError :=
  ⟨rfl, by simp,
    nonarray_redeclaration_is_definition_error _ "f" (.int 2) (.int 1) rfl (by simp)⟩

/-- C10: `BinarySectionReader.array` is unrestricted: on every state —
including one where the name is already bound, as a scalar or as a non-empty
array — it rebinds the name to the empty list, (re-)marks it as an array,
raises nothing (witnessed by the engine returning `.ok`), and reads no
input. -/
theorem array_rebinds_unconditionally (rs : RState) (name : String) :
    lookup (readerArray rs name).result name = some (.arr []) ∧
    name ∈ (readerArray rs name).arrays ∧
    (readerArray rs name).stream = rs.stream ∧
    runRead (.arrayD name .done) rs = .ok (readerArray rs name) := by
  refine ⟨lookup_insertVal_self _ _ _, ?_, rfl, rfl⟩
  by_cases h : name ∈ rs.arrays <;> simp [readerArray, h]

/-- One `_add_result` on an array-marked field appends to the stored list. -/
theorem addResult_arr_step {rs : RState} {name : String} {vs0 : List Value}
    (hmem : name ∈ rs.arrays) (hl : lookup rs.result name = some (.arr vs0)) (v : Value) :
    addResult rs name v =
      .ok { rs with result := insertVal rs.result name (.arr (vs0 ++ [v])) } := by
  simp [addResult, hl, hmem]

/-- Folding `_add_result` over a list of decoded values extends the stored
list by those values, in order. -/
theorem addResultN_from_arr {name : String} (vs : List Value) :
    ∀ (rs : RState) (vs0 : List Value), name ∈ rs.arrays →
      lookup rs.result name = some (.arr vs0) →
      ∃ rs', addResultN rs name vs = .ok rs' ∧
        lookup rs'.result name = some (.arr (vs0 ++ vs)) := by
  induction vs with
  | nil =>
      intro rs vs0 hmem hl
      exact ⟨rs, rfl, by simpa using hl⟩
  | cons v vs ih =>
      intro rs vs0 hmem hl
      have hstep := addResult_arr_step hmem hl v
      obtain ⟨rs', h1, h2⟩ :=
        ih { rs with result := insertVal rs.result name (.arr (vs0 ++ [v])) }
          (vs0 ++ [v]) hmem (lookup_insertVal_self _ _ _)
      refine ⟨rs', ?_, by simpa [List.append_assoc] using h2⟩
      simp [addResultN, hstep, Except.bind, h1]

/-- Chained `_get_data` consumptions walk an array field from index `i` to
its end, returning the elements in index order and leaving the data bound. -/
theorem getDataN_consumes {name : String} (vs : List Value) :
    ∀ (k i : Nat) (ws : WState), i + k = vs.length →
      lookupIdx ws.indices name = some i →
      lookup ws.data name = some (.arr vs) →
      ∃ ws', getDataN ws name k = .ok (vs.drop i, ws') ∧
        lookupIdx ws'.indices name = some vs.length ∧
        lookup ws'.data name = some (.arr vs) := by
  intro k
  induction k with
  | zero =>
      intro i ws hk hidx hdata
      have hi : i = vs.length := by omega
      subst hi
      exact ⟨ws, by simp [getDataN, List.drop_length], hidx, hdata⟩
  | succ k ih =>
      intro i ws hk hidx hdata
      have hlt : i < vs.length := by omega
      have hstep := getData_arr_lt hidx hdata hlt
      obtain ⟨ws', h1, h2, h3⟩ :=
        ih (i + 1) { ws with indices := setIdx ws.indices name (i + 1) }
          (by omega) (lookupIdx_setIdx_self _ _ _) hdata
      refine ⟨ws', ?_, h2, h3⟩
      have hdrop : vs.drop i = vs.getD i (.int 0) :: vs.drop (i + 1) := by
        rw [List.getD_eq_getElem _ _ hlt]
        exact List.drop_eq_getElem_cons hlt
      simp [getDataN, hstep, Except.bind, h1, Except.map, hdrop]

/-- C6: after `array(name)`, decoding `name` `N` times stores exactly those
`N` values in decode order; and on encode, a container binding `name` to a
sequence of length `N` yields its elements in index order for exactly `N`
consumptions, with the `(N+1)`-th `_get_data` raising `DataFormatError`. -/
theorem array_discipline :
    (∀ (rs : RState) (name : String) (vs : List Value),
      ∃ rs', addResultN (readerArray rs name) name vs = .ok rs' ∧
        lookup rs'.result name = some (.arr vs)) ∧
    (∀ (ws : WState) (name : String) (vs : List Value),
      lookup ws.data name = some (.arr vs) →
      ∃ ws', getDataN (writerArray ws name) name vs.length = .ok (vs, ws') ∧
        getData ws' name = .error .dataFormatError) := by
  constructor
  · intro rs name vs
    have hmem : name ∈ (readerArray rs name).arrays := by
      by_cases h : name ∈ rs.arrays <;> simp [readerArray, h]
    obtain ⟨rs', h1, h2⟩ :=
      addResultN_from_arr vs (readerArray rs name) [] hmem (lookup_insertVal_self _ _ _)
    exact ⟨rs', h1, by simpa using h2⟩
  · intro ws name vs hdata
    obtain ⟨ws', h1, h2, h3⟩ :=
      getDataN_consumes vs vs.length 0 (writerArray ws name)
        (by omega) (lookupIdx_setIdx_self _ _ _) hdata
    exact ⟨ws', by simpa using h1, getData_arr_end h2 h3 (by omega)⟩

/-- Witness for C6: a two-element array is consumed exactly twice; the third
consumption fails with `DataFormatError`. -/
theorem array_discipline_witness :
    lookup ([("a", .arr [.int 1, .int 2])] : Container) "a" = some (.arr [.int 1, .int 2]) ∧
    ∃ ws', getDataN (writerArray ⟨[("a", .arr [.int 1, .int 2])], [], .big, []⟩ "a") "a" 2
        = .ok ([.int 1, .int 2], ws') ∧ getData ws' "a" = .error .dataFormatError :=
  ⟨rfl, array_discipline.2 ⟨[("a", .arr [.int 1, .int 2])], [], .big, []⟩ "a"
    [.int 1, .int 2] rfl⟩

/-- C8: with a bounded size and fewer bytes remaining than that size, every
reading primitive — `bytes`, `int`, `uint`, `count`, `skip` (on a container
whose skipped-region entry, if any, is a list), and `struct` via its
`calcsize` — fails with `EOFError` rather than returning a value. -/
theorem truncation_is_eof_error :
    (∀ (rs : RState) (name : String) (n : Nat), rs.stream.length < n →
      readerBytes rs name (some n) = .error .eofError) ∧
    (∀ (rs : RState) (name : String) (n : Nat) (bo : Option ByteOrder),
      rs.stream.length < n → readerInt rs name (some n) bo = .error .eofError) ∧
    (∀ (rs : RState) (name : String) (n : Nat) (bo : Option ByteOrder),
      rs.stream.length < n → readerUint rs name (some n) bo = .error .eofError) ∧
    (∀ (rs : RState) (name target : String) (n : Nat) (bo : Option ByteOrder),
      rs.stream.length < n → readerCount rs name target (some n) bo = .error .eofError) ∧
    (∀ (rs : RState) (n : Nat), rs.stream.length < n →
      (lookup rs.result "__skipped" = none ∨
        ∃ vs, lookup rs.result "__skipped" = some (.arr vs)) →
      readerSkip rs n = .error .eofError) ∧
    (∀ (rs : RState) (name : String) (fmt : Fmt), rs.stream.length < calcsize fmt →
      readerStruct rs name fmt = .error .eofError) := by
  refine ⟨?_, ?_, ?_, ?_, ?_, ?_⟩
  · intro rs name n h
    simp [readerBytes, readBytes_eof h, Except.bind]
  · intro rs name n bo h
    simp [readerInt, readerIntAux, readBytes_eof h, Except.bind]
  · intro rs name n bo h
    simp [readerUint, readerIntAux, readBytes_eof h, Except.bind]
  · intro rs name target n bo h
    simp [readerCount, readerUint, readerIntAux, readBytes_eof h, Except.bind]
  · intro rs n h hsk
    rcases hsk with hn | ⟨vs, hv⟩
    · simp [readerSkip, hn, readBytes_eof h, Except.bind]
    · simp [readerSkip, hv, readBytes_eof h, Except.bind]
  · intro rs name fmt h
    simp [readerStruct, readBytes_eof h, Except.bind]

/-- Witness for C8: the spec's own example — 3 available bytes decoded as a
4-byte unsigned integer fail with `EOFError`. -/
theorem truncation_is_eof_error_witness :
    ([1, 2, 3] : List Nat).length < 4 ∧
    readerUint ⟨[1, 2, 3], [], [], .big⟩ "n" (some 4) none = .error .eofError :=
  ⟨by decide, truncation_is_eof_error.2.2.1 ⟨[1, 2, 3], [], [], .big⟩ "n" 4 none (by decide)⟩

/-- C9: encoding 65540 into `uint('n', 2)` fails with `DataFormatError`
while 65535 succeeds and emits exactly the two bytes `ff ff`; in general a
bounded `int`/`uint` encode fails with `DataFormatError` exactly where the
value does not fit the declared width with the declared signedness
(`int.to_bytes` overflow, wrapped by `_int`; the byte order affects only the
byte layout, never whether the value fits). -/
theorem encode_overflow_is_data_format_error :
    ffwrite [("n", .int 65540)] uintDesc = .error .dataFormatError ∧
    ffwrite [("n", .int 65535)] uintDesc = .ok [255, 255] ∧
    ([255, 255] : List Nat).length = 2 ∧
    (∀ (ws : WState) (name : String) (n : Nat) (bo : Option ByteOrder) (v : Int),
      lookupIdx ws.indices name = none → lookup ws.data name = some (.int v) →
      ¬ fitsU n v → writerUint ws name (some n) bo = .error .dataFormatError) ∧
    (∀ (ws : WState) (name : String) (n : Nat) (bo : Option ByteOrder) (v : Int),
      lookupIdx ws.indices name = none → lookup ws.data name = some (.int v) →
      ¬ fitsS n v → writerInt ws name (some n) bo = .error .dataFormatError) := by
  refine ⟨rfl, rfl, rfl, ?_, ?_⟩
  · intro ws name n bo v hidx hdata hnf
    simp [writerUint, writerIntAux, getData_scalar hidx hdata, Except.bind, pyInt,
      toBytes_not_fitsU (bo.getD ws.byteorder) hnf]
  · intro ws name n bo v hidx hdata hnf
    simp [writerInt, writerIntAux, getData_scalar hidx hdata, Except.bind, pyInt,
      toBytes_not_fitsS (bo.getD ws.byteorder) hnf]

/-- C4 counterexample: for `skip(1)` on the stream `b'\x00'`, decoding
stores the skipped byte and the reader's `skip` returns no value (`None`),
while the writer's `skip`, run on the decoded container, returns the
skipped bytes `b'\x00'` — the two traversals hand the description different
values for the same operation. -/
theorem skip_value_parity_fails :
    ffread [0] skipDesc = .ok [("__skipped", .arr [.bytes [0]])] ∧
    (readerSkip ⟨[0], [], [], .big⟩ 1).map (fun p => p.1) = .ok none ∧
    (writerSkip ⟨[("__skipped", .arr [.bytes [0]])], [], .big, []⟩ 1).map (fun p => p.1)
      = .ok (some [0]) ∧
    (some [0] : Option (List Nat)) ≠ none :=
  ⟨rfl, rfl, rfl, by decide⟩

/-- C4 amended: value parity holds operation-by-operation for `bytes` (any
declared size), for `uint` with bounded and unbounded sizes, and for `int`
with bounded sizes — when the container binds the name, as a scalar, to the
value the decode-time operation returned, the encode-time operation returns
that same value — and `section` hands the description the same sub-container
in both traversals (the reader the sub-container it stores, the writer the
stored sub-container); `array` returns no value on either side.  The
remaining operations deviate: `int` with an unbounded size fails on
re-encode when the decoded value needs the top bit of its minimal width
(decoding `b'\x00\x80'` yields 128, and re-encoding raises
`DataFormatError` because the minimal size 1 cannot hold 128 signed); the
writer's `struct` returns the whole stored value under the name (the
decoded tuple for scalar fields, but the full list for array fields) while
the reader's `struct` returns and stores the unpacked tuple; the writer's
`count` never returns (it raises); and the reader's `skip` returns no value
while the writer's may return bytes. -/
theorem value_parity_by_operation :
    (∀ (rs rs' : RState) (ws : WState) (name : String) (size : Option Nat) (bs : List Nat),
      readerBytes rs name size = .ok (bs, rs') →
      lookupIdx ws.indices name = none →
      lookup ws.data name = some (.bytes bs) →
      (writerBytes ws name size).map (fun p => p.1) = .ok bs) ∧
    (∀ (rs rs' : RState) (ws : WState) (name : String) (n : Nat) (bo : Option ByteOrder)
        (v : Int),
      readerUint rs name (some n) bo = .ok (v, rs') →
      (∀ b ∈ rs.stream, b < 256) →
      lookupIdx ws.indices name = none →
      lookup ws.data name = some (.int v) →
      (writerUint ws name (some n) bo).map (fun p => p.1) = .ok v) ∧
    (∀ (rs rs' : RState) (ws : WState) (name : String) (bo : Option ByteOrder) (v : Int),
      readerUint rs name none bo = .ok (v, rs') →
      lookupIdx ws.indices name = none →
      lookup ws.data name = some (.int v) →
      (writerUint ws name none bo).map (fun p => p.1) = .ok v) ∧
    (∀ (rs rs' : RState) (ws : WState) (name : String) (n : Nat) (bo : Option ByteOrder)
        (v : Int),
      readerInt rs name (some n) bo = .ok (v, rs') →
      (∀ b ∈ rs.stream, b < 256) →
      lookupIdx ws.indices name = none →
      lookup ws.data name = some (.int v) →
      (writerInt ws name (some n) bo).map (fun p => p.1) = .ok v) ∧
    (readerInt ⟨[0, 128], [], [], .big⟩ "x" none none
        = .ok (128, ⟨[], [("x", .int 128)], [], .big⟩) ∧
      writerInt ⟨[("x", .int 128)], [], .big, []⟩ "x" none none
        = .error .dataFormatError) ∧
    (∀ (rs rs1 : RState) (name : String) (body : Desc) (k : Container → Desc)
        (child : RState),
      runRead body (sectionChildR rs) = .ok child →
      addResult { rs with stream := child.stream } name (.sec child.result) = .ok rs1 →
      runRead (.secD name body k) rs = runRead (k child.result) rs1) ∧
    (∀ (ws : WState) (name : String) (body : Desc) (k : Container → Desc)
        (fields : Container),
      lookupIdx ws.indices name = none → lookup ws.data name = some (.sec fields) →
      runWrite (.secD name body k) ws =
        (runWrite body (sectionChildW ws fields)).bind fun child =>
          runWrite (k fields) { ws with out := child.out }) ∧
    (∀ (ws : WState) (name : String) (fmt : Fmt) (v0 : Value) (r : Value × WState),
      lookupIdx ws.indices name = none → lookup ws.data name = some v0 →
      writerStruct ws name fmt = .ok r → r.1 = v0) ∧
    (∀ (rs rs' : RState) (name : String) (fmt : Fmt) (vs : List Value),
      readerStruct rs name fmt = .ok (vs, rs') → lookup rs.result name = none →
      lookup rs'.result name = some (.tup vs)) ∧
    (∀ (ws : WState) (name target : String) (size : Option Nat) (bo : Option ByteOrder)
        (r : Int × WState), writerCount ws name target size bo ≠ .ok r) ∧
    (∀ (rs : RState) (size : Nat) (r : Option (List Nat) × RState),
      readerSkip rs size = .ok r → r.1 = none) := by
  refine ⟨?_, ?_, ?_, ?_, ?_, ?_, ?_, ?_, ?_, ?_, ?_⟩
  · intro rs rs' ws name size bs hr hidx hdata
    obtain ⟨rsm, hrb⟩ := readerBytes_ok_readBytes hr
    have hwb : writerBytes ws name size = .ok (bs, { ws with out := ws.out ++ bs }) := by
      cases size with
      | none =>
          simp [writerBytes, getData_scalar hidx hdata, Except.bind, writeBytesChecked, pyLen]
      | some n =>
          obtain ⟨hb, hlen, hdrop⟩ := readBytes_bounded_ok hrb
          simp [writerBytes, getData_scalar hidx hdata, Except.bind, writeBytesChecked,
            pyLen, Option.elim, hlen]
    simp [hwb, Except.map]
  · intro rs rs' ws name n bo v hr hstream hidx hdata
    have hr' : readerIntAux rs name (some n) bo false = .ok (v, rs') := hr
    obtain ⟨hlen, hv⟩ := readerIntAux_ok_val hr'
    simp only [if_neg Bool.false_ne_true, Bool.false_eq_true, if_false] at hv
    have hmem : ∀ b ∈ rs.stream.take n, b < 256 := fun b hb =>
      hstream b (List.take_subset n rs.stream hb)
    have hfits : fitsU n v := by
      rw [hv]
      have := fitsU_fromBytesU (bo.getD rs.byteorder) (rs.stream.take n) hmem
      rwa [hlen] at this
    obtain ⟨bs', hbs'⟩ := toBytes_fitsU (bo.getD ws.byteorder) hfits
    simp [writerUint, writerIntAux, getData_scalar hidx hdata, Except.bind, pyInt,
      hbs', Except.map]
  · intro rs rs' ws name bo v hr hidx hdata
    have hr' : readerIntAux rs name none bo false = .ok (v, rs') := hr
    have hv := readerIntAux_unbounded_ok_val hr'
    simp only [if_neg Bool.false_ne_true, Bool.false_eq_true, if_false] at hv
    have hpos : 0 ≤ v := by rw [hv]; exact Int.ofNat_nonneg _
    obtain ⟨bs', hbs'⟩ := toBytes_fitsU (bo.getD ws.byteorder) (fitsU_minimal v hpos)
    simp [writerUint, writerIntAux, getData_scalar hidx hdata, Except.bind, pyInt,
      hbs', Except.map]
  · intro rs rs' ws name n bo v hr hstream hidx hdata
    have hr' : readerIntAux rs name (some n) bo true = .ok (v, rs') := hr
    obtain ⟨hlen, hv⟩ := readerIntAux_ok_val hr'
    simp only [if_pos rfl, if_true] at hv
    have hmem : ∀ b ∈ rs.stream.take n, b < 256 := fun b hb =>
      hstream b (List.take_subset n rs.stream hb)
    have hfits : fitsS n v := by
      rw [hv]
      have := fitsS_fromBytesS (bo.getD rs.byteorder) (rs.stream.take n) hmem
      rwa [hlen] at this
    obtain ⟨bs', hbs'⟩ := toBytes_fitsS (bo.getD ws.byteorder) hfits
    simp [writerInt, writerIntAux, getData_scalar hidx hdata, Except.bind, pyInt,
      hbs', Except.map]
  · refine ⟨rfl, ?_⟩
    have hgd : getData ⟨[("x", .int 128)], [], .big, []⟩ "x"
        = .ok (.int 128, ⟨[("x", .int 128)], [], .big, []⟩) := rfl
    have htb : toBytes ((bitLength 128 + 7) / 8) ByteOrder.big true 128 = none := by
      rw [bitLength_128]
      exact toBytes_not_fitsS _ (by decide)
    simp [writerInt, writerIntAux, hgd, Except.bind, pyInt, htb]
  · intro rs rs1 name body k child hbody hadd
    simp [runRead, hbody, hadd, Except.bind]
  · intro ws name body k fields hidx hdata
    simp [runWrite, getData_scalar hidx hdata, Except.bind]
  · intro ws name fmt v0 r hidx hdata hw
    unfold writerStruct at hw
    rw [getData_scalar hidx hdata] at hw
    simp only [Except.bind] at hw
    cases htt : toTuple v0 with
    | none => simp [htt] at hw
    | some vs =>
        cases hpk : packGo fmt.bo fmt.items vs with
        | none => simp [htt, hpk] at hw
        | some bs =>
            simp only [htt, hpk, hdata, Except.ok.injEq] at hw
            rw [← hw]
  · intro rs rs' name fmt vs h hnone
    unfold readerStruct at h
    cases hrb : readBytes rs (some (calcsize fmt)) with
    | error e => rw [hrb] at h; simp [Except.bind] at h
    | ok p =>
        obtain ⟨b0, rs0⟩ := p
        obtain ⟨hb0, hlen, hrs0⟩ := readBytes_bounded_ok hrb
        rw [hrb] at h
        simp only [Except.bind] at h
        have hres : lookup rs0.result name = none := by rw [hrs0]; exact hnone
        have haddr : addResult rs0 name (.tup (unpackGo fmt.bo fmt.items b0)) =
            .ok { rs0 with
              result := insertVal rs0.result name (.tup (unpackGo fmt.bo fmt.items b0)) } := by
          simp [addResult, hres]
        rw [haddr] at h
        simp only [Except.map, Except.ok.injEq, Prod.mk.injEq] at h
        obtain ⟨h1, h2⟩ := h
        rw [← h2, ← h1]
        exact lookup_insertVal_self _ _ _
  · intro ws name target size bo r h
    unfold writerCount at h
    cases hl : lookup ws.data target with
    | none => simp [hl] at h
    | some v =>
        cases hp : pyLen v with
        | none => simp [hl, hp] at h
        | some len => simp [hl, hp] at h
  · intro rs size r h
    unfold readerSkip at h
    cases hl : lookup rs.result "__skipped" with
    | none =>
        rw [hl] at h
        cases hrb : readBytes rs (some size) with
        | error e => rw [hrb] at h; simp [Except.bind] at h
        | ok p =>
            obtain ⟨bs0, rs0⟩ := p
            rw [hrb] at h
            simp only [Except.bind, Except.ok.injEq] at h
            rw [← h]
    | some v =>
        rw [hl] at h
        cases v with
        | arr vs =>
            cases hrb : readBytes rs (some size) with
            | error e => rw [hrb] at h; simp [Except.bind] at h
            | ok p =>
                obtain ⟨bs0, rs0⟩ := p
                rw [hrb] at h
                simp only [Except.bind, Except.ok.injEq] at h
                rw [← h]
        | bytes bs => simp at h
        | int m => simp at h
        | bool b => simp at h
        | tup vs => simp at h
        | sec f => simp at h

/-- Witness for C4's amended parity: a 2-byte big-endian unsigned field
decodes to 5 and the writer returns 5 for the round-tripped container. -/
theorem value_parity_witness :
    readerUint ⟨[0, 5], [], [], .big⟩ "n" (some 2) none
        = .ok (5, ⟨[], [("n", .int 5)], [], .big⟩) ∧
    (writerUint ⟨[("n", .int 5)], [], .big, []⟩ "n" (some 2) none).map (fun p => p.1)
        = .ok 5 :=
  ⟨rfl, value_parity_by_operation.2.1 ⟨[0, 5], [], [], .big⟩ ⟨[], [("n", .int 5)], [], .big⟩
      ⟨[("n", .int 5)], [], .big, []⟩ "n" 2 none 5 rfl (by decide) rfl rfl⟩

/-- Witness for C9's general part: 65540 does not fit 2 unsigned bytes and
the writer rejects it. -/
theorem encode_overflow_witness :
    ¬ fitsU 2 65540 ∧
    writerUint ⟨[("n", .int 65540)], [], .big, []⟩ "n" (some 2) none
      = .error .dataFormatError :=
  ⟨by decide,
    encode_overflow_is_data_format_error.2.2.2.1 ⟨[("n", .int 65540)], [], .big, []⟩
      "n" 2 none 65540 rfl rfl (by decide)⟩

end BinaryFile
